import Mathlib

/-!
Shallow embedding of the TLE repository's clist API client, virtual-contest
settlement scheduler, and Elo rating engine, with theorems checking the
natural-language specification against the code.

Sources embedded:
- `src/tle/util/clist_api.py` (`ratelimit`, `statistics`, `cache`,
  `fetch_rating_changes`)
- `src/tle/cogs/contests.py` (`Contests._watch_rated_vc`,
  `Contests._watch_rated_vcs_task`)
- `src/tle/cogs/codeforces.py` (`Codeforces.getEloWinProbability`,
  `Codeforces.composeRatings`)
-/

namespace TLE

/-! ## clist_api: rate-limited retry wrapper (`ratelimit`, lines 52-75) -/

/-- Error classes raised by `_query_clist_api`: `CallLimitExceededError`
(HTTP 429), `ClientError` (network failure), and other `ClistApiError`s
(non-2xx response).  All are subclasses of `ClistApiError` in the source. -/
inductive ApiError
  | callLimitExceeded
  | clientError
  | apiError
deriving DecidableEq

/-- Observable outcome of a run of the `ratelimit` wrapper: the surfaced
result, the list of sleep durations (seconds) performed, and the number of
attempts made. -/
structure RunResult (α : Type) where
  result : Except ApiError α
  delays : List Nat
  attempts : Nat

/-- One step of the retry loop in `ratelimit`: attempt index `i`, with
`remaining` loop iterations left (the source iterates `for i in range(3)`).
On `CallLimitExceededError` the source sleeps `20 * (i + 1)` seconds before
deciding whether to retry; on other `ClistApiError`s it retries immediately;
after the last attempt it re-raises the error. -/
def ratelimitGo (f : Nat → Except ApiError α) : Nat → Nat → List Nat → RunResult α
  | 0, i, delays => { result := Except.error ApiError.apiError, delays := delays, attempts := i }
  | remaining + 1, i, delays =>
    match f i with
    | Except.ok a => { result := Except.ok a, delays := delays, attempts := i + 1 }
    | Except.error e =>
      let delays' := if e = ApiError.callLimitExceeded then delays ++ [20 * (i + 1)] else delays
      if remaining = 0 then { result := Except.error e, delays := delays', attempts := i + 1 }
      else ratelimitGo f remaining (i + 1) delays'

/-- The `ratelimit` decorator with its fixed `tries = 3`, applied to a
fallible call `f` whose outcome may differ per attempt. -/
def ratelimitRun (f : Nat → Except ApiError α) : RunResult α :=
  ratelimitGo f 3 0 []

/-! ## clist_api: paged `statistics` fetch (lines 157-188) -/

/-- The paging loop of `statistics`: `query` maps an offset to the `objects`
array of the response (`none` models a missing/invalid response).  A failing
first page raises `ClientError`; a failing later page breaks with the results
so far; a page with fewer than the hardcoded `1000` items ends the loop.
`fuel` bounds the number of iterations of the source's `while True` loop;
the result also carries the list of offsets actually requested. -/
def statisticsGo (query : Nat → Option (List Nat)) :
    Nat → Nat → List Nat → List Nat → Option (Except Unit (List Nat × List Nat))
  | 0, _, _, _ => none
  | fuel + 1, offset, results, reqs =>
    match query offset with
    | none =>
      if offset = 0 then some (Except.error ()) else some (Except.ok (results, reqs ++ [offset]))
    | some objects =>
      if objects.length < 1000 then some (Except.ok (results ++ objects, reqs ++ [offset]))
      else statisticsGo query fuel (offset + 1000) (results ++ objects) (reqs ++ [offset])

/-- `statistics` starts at offset 0 with empty accumulators. -/
def statistics (query : Nat → Option (List Nat)) (fuel : Nat) :
    Option (Except Unit (List Nat × List Nat)) :=
  statisticsGo query fuel 0 [] []

/-- Modelled from the spec: the paged fetch as the claim words it, stopping
exactly when a page returns fewer than `limit` items (the source instead
compares against the hardcoded constant `1000`).  Used only to compare the
source behaviour against the claimed behaviour. -/
def statisticsSpecGo (query : Nat → Option (List Nat)) (limit : Nat) :
    Nat → Nat → List Nat → List Nat → Option (Except Unit (List Nat × List Nat))
  | 0, _, _, _ => none
  | fuel + 1, offset, results, reqs =>
    match query offset with
    | none =>
      if offset = 0 then some (Except.error ()) else some (Except.ok (results, reqs ++ [offset]))
    | some objects =>
      if objects.length < limit then some (Except.ok (results ++ objects, reqs ++ [offset]))
      else statisticsSpecGo query limit fuel (offset + 1000) (results ++ objects) (reqs ++ [offset])

/-- Entry point of the spec-worded paged fetch. -/
def statisticsSpec (query : Nat → Option (List Nat)) (limit : Nat) (fuel : Nat) :
    Option (Except Unit (List Nat × List Nat)) :=
  statisticsSpecGo query limit fuel 0 [] []

/-- `servesFrom query k pages lastPage` says the upstream source, probed at
offsets `k, k+1000, ...`, serves the full pages `pages` (each holding at
least 1000 items) followed by the short final page `lastPage`. -/
def servesFrom (query : Nat → Option (List Nat)) : Nat → List (List Nat) → List Nat → Bool
  | k, [], lastPage => decide (query k = some lastPage) && decide (lastPage.length < 1000)
  | k, pg :: rest, lastPage =>
    decide (query k = some pg) && decide (1000 ≤ pg.length) && servesFrom query (k + 1000) rest lastPage

/-! ## clist_api: contest-list cache (`cache`, lines 119-142) -/

/-- `_CLIST_API_TIME_DIFFERENCE = 30 * 60` seconds (lines 19-20). -/
def clistApiTimeDifference : Int := 30 * 60

/-- The `cache(forced)` function: `db` is the `querytime` stored in the
contests DB file (`none` when the file is missing or unreadable; a falsy
stored value also yields last-timestamp `0`).  Returns whether an upstream
fetch was performed, and the new stored `querytime`. -/
def cache (forced : Bool) (now : Int) (db : Option Int) : Bool × Option Int :=
  let lastTimeStamp : Int := match db with | none => 0 | some t => t
  if ¬forced = true ∧ now - lastTimeStamp < clistApiTimeDifference then (false, db)
  else (true, some now)

/-! ## clist_api: `fetch_rating_changes` (lines 298-322) -/

/-- One element of the `statistics` response consumed by
`fetch_rating_changes`; `dateSeconds` stands for the already-parsed `date`
field, and `performanceField` for `more_fields['performance']` when present. -/
structure UpstreamChange where
  contest_id : Nat
  event : String
  handle : String
  place : Nat
  dateSeconds : Int
  new_rating : Option Int
  rating_change : Option Int
  old_rating : Option Int
  performanceField : Option Int
deriving DecidableEq

/-- The `RatingChange` record constructed by `fetch_rating_changes`. -/
structure RatingChange where
  contestId : Nat
  contestName : String
  handle : String
  rank : Nat
  ratingUpdateTimeSeconds : Int
  oldRating : Int
  newRating : Int
deriving DecidableEq

/-- The resolved old rating, given the non-null new rating `nr`: with
`performance=False` it is `old_rating` or `new_rating - rating_change`
(with a null `rating_change` read as 0); with `performance=True` it is
replaced by `more_fields['performance']`, absent meaning `None`. -/
def resolvedOldRating (performance : Bool) (c : UpstreamChange) (nr : Int) : Option Int :=
  if performance then c.performanceField
  else some (c.old_rating.getD (nr - c.rating_change.getD 0))

/-- Processing of one upstream entry in the loop of `fetch_rating_changes`:
entries with a null `new_rating` are skipped; then `if not old_rating:
continue` skips a resolved old rating that is `None` or `0` (Python
falsiness). -/
def processChange (performance : Bool) (c : UpstreamChange) : Option RatingChange :=
  match c.new_rating with
  | none => none
  | some nr =>
    match resolvedOldRating performance c nr with
    | none => none
    | some o =>
      if o = 0 then none
      else some { contestId := c.contest_id, contestName := c.event, handle := c.handle,
                  rank := c.place, ratingUpdateTimeSeconds := c.dateSeconds,
                  oldRating := o, newRating := nr }

/-- `fetch_rating_changes` maps the statistics response through the
per-entry processing, keeping only surviving entries, in order. -/
def fetch_rating_changes (performance : Bool) (resp : List UpstreamChange) : List RatingChange :=
  resp.filterMap (processChange performance)

/-! ## contests.py: rated-VC settlement (`_watch_rated_vc`, lines 721-761,
and `_watch_rated_vcs_task`, lines 763-770) -/

/-- Status of a rated virtual contest. -/
inductive VcStatus
  | ongoing
  | finished
deriving DecidableEq

/-- The static attributes of a rated VC read via `get_rated_vc`. -/
structure RatedVc where
  contestId : Nat
  guildId : Nat
  startTime : Int
  finishTime : Int
deriving DecidableEq

/-- A submission as returned by `cf.user.status`, restricted to the fields
used by `has_running_subs`. -/
structure Submission where
  verdict : String
  contestId : Nat
  relativeTimeSeconds : Int
deriving DecidableEq

/-- A store call performed by the settlement code against `user_db`. -/
inductive StoreEvent
  | removeParticipation (vcId memberId : Nat)
  | updateRating (vcId memberId : Nat) (newRating : Int)
  | finishVc (vcId : Nat)
deriving DecidableEq

/-- The VC id a store event refers to. -/
def eventVcId : StoreEvent → Nat
  | StoreEvent.removeParticipation v _ => v
  | StoreEvent.updateRating v _ _ => v
  | StoreEvent.finishVc v => v

/-- Modelled from the spec: the durable store collaborator (`user_db`),
whose implementation is not under `src/`.  `vcs` holds each VC's static
attributes, `status` its lifecycle state, `participants` the ordered
participant ids per VC, `vcRating` the current rating per member
(`get_vc_rating` with its default), `records` the append-only rating
records `(vcId, memberId, newRating)`, and `trace` the ordered log of
store calls issued. -/
structure Db where
  vcs : List (Nat × RatedVc)
  status : Nat → VcStatus
  participants : Nat → List Nat
  vcRating : Nat → Int
  records : List (Nat × Nat × Int)
  trace : List StoreEvent

/-- Errors `_watch_rated_vc` can raise: `ContestCogError` for a missing
rated-VC channel, a missing VC row, or an upstream fetch failure. -/
inductive WatchError
  | noChannel
  | vcNotFound
  | fetchFailed
deriving DecidableEq

/-- The collaborators injected into the watcher: the channel registered per
guild (`get_rated_vc_channel`), the handle per member id (`get_handle`),
the `delta_by_handle` map of the ranklist generated for a VC
(`generate_vc_ranklist`, fallible), the submissions per handle
(`cf.user.status`, fallible), and the current wall-clock time. -/
structure WatchEnv where
  channelOf : Nat → Option Nat
  handleOf : Nat → String
  ranklistDelta : Nat → Except WatchError (String → Option Int)
  subsOf : String → Except WatchError (List Submission)
  now : Int

/-- Modelled from the spec: `remove_participant(vcId, participantId)` —
removes the member from the VC's participant set and logs the call. -/
def removeParticipation (db : Db) (vcId m : Nat) : Db :=
  { db with
    participants := fun v => if v = vcId then (db.participants v).filter (fun x => x ≠ m)
                             else db.participants v,
    trace := db.trace ++ [StoreEvent.removeParticipation vcId m] }

/-- Modelled from the spec: `append_rating_record` / `update_vc_rating` —
appends one rating record for the member and makes it their current rating. -/
def updateVcRating (db : Db) (vcId m : Nat) (r : Int) : Db :=
  { db with
    vcRating := fun x => if x = m then r else db.vcRating x,
    records := db.records ++ [(vcId, m, r)],
    trace := db.trace ++ [StoreEvent.updateRating vcId m r] }

/-- Modelled from the spec: `set_vc_status(vcId, FINISHED)` /
`finish_rated_vc`. -/
def finishRatedVc (db : Db) (vcId : Nat) : Db :=
  { db with
    status := fun v => if v = vcId then VcStatus.finished else db.status v,
    trace := db.trace ++ [StoreEvent.finishVc vcId] }

/-- Modelled from the spec: `list_ongoing_vc_ids` /
`get_ongoing_rated_vc_ids` — the ids of the VCs whose status is ONGOING. -/
def getOngoingRatedVcIds (db : Db) : List Nat :=
  (db.vcs.filter (fun p => decide (db.status p.1 = VcStatus.ongoing))).map (fun p => p.1)

/-- `has_running_subs(handle)` (lines 733-737): submissions with verdict
`TESTING`, against the VC's contest, with relative time at most the VC
duration. -/
def hasRunningSubs (vc : RatedVc) (subs : List Submission) : List Submission :=
  subs.filter (fun s =>
    s.verdict == "TESTING" && s.contestId == vc.contestId &&
      decide (s.relativeTimeSeconds ≤ vc.finishTime - vc.startTime))

/-- The list comprehension `[await has_running_subs(handle) for handle in
handles]`: every handle is queried in order; a failing query aborts. -/
def collectSubs (subsOf : String → Except WatchError (List Submission)) :
    List String → Except WatchError (List (List Submission))
  | [] => Except.ok []
  | h :: t =>
    match subsOf h with
    | Except.error e => Except.error e
    | Except.ok l =>
      match collectSubs subsOf t with
      | Except.error e => Except.error e
      | Except.ok ls => Except.ok (l :: ls)

/-- The settlement loop of `_watch_rated_vc` (lines 750-758): per
`(handle, member_id)` pair, a member whose handle has no delta is removed
from the VC; otherwise one rating record `oldRating + delta` is appended. -/
def settleLoop (vcId : Nat) (delta : String → Option Int) :
    List (String × Nat) → Db → Db
  | [], db => db
  | (h, m) :: rest, db =>
    match delta h with
    | none => settleLoop vcId delta rest (removeParticipation db vcId m)
    | some d => settleLoop vcId delta rest (updateVcRating db vcId m (db.vcRating m + d))

/-- `_watch_rated_vc(vc_id)` (lines 721-761): reads the VC, requires a
rated-VC channel, resolves handles, generates the ranklist, checks for
pending judgements, defers when the VC is not over or judgements are
pending, and otherwise settles and finishes the VC.  Returns the updated
store and the raised error, if any. -/
def watchRatedVc (env : WatchEnv) (db : Db) (vcId : Nat) : Db × Option WatchError :=
  match db.vcs.lookup vcId with
  | none => (db, some WatchError.vcNotFound)
  | some vc =>
    match env.channelOf vc.guildId with
    | none => (db, some WatchError.noChannel)
    | some _ =>
      let memberIds := db.participants vcId
      let handles := memberIds.map env.handleOf
      match env.ranklistDelta vcId with
      | Except.error e => (db, some e)
      | Except.ok delta =>
        match collectSubs env.subsOf handles with
        | Except.error e => (db, some e)
        | Except.ok ls =>
          let runningSubsFlag := ls.any (fun l => !(hasRunningSubs vc l).isEmpty)
          if decide (env.now < vc.finishTime) || runningSubsFlag then (db, none)
          else (finishRatedVc (settleLoop vcId delta (handles.zip memberIds) db) vcId, none)

/-- The `for rated_vc_id in ongoing_rated_vcs` loop of
`_watch_rated_vcs_task` (lines 769-770): there is no `try`/`except`, so an
error raised for one VC stops the loop and propagates. -/
def watchLoop (env : WatchEnv) : Db → List Nat → Db × Option WatchError
  | db, [] => (db, none)
  | db, v :: rest =>
    match watchRatedVc env db v with
    | (db', none) => watchLoop env db' rest
    | (db', some e) => (db', some e)

/-- One tick of `_watch_rated_vcs_task` (lines 763-770): iterate over the
ongoing VC ids. -/
def watchRatedVcsTask (env : WatchEnv) (db : Db) : Db × Option WatchError :=
  watchLoop env db (getOngoingRatedVcIds db)

/-- The rating records of the store that belong to one VC. -/
def recordsFor (db : Db) (vcId : Nat) : List (Nat × Nat × Int) :=
  db.records.filter (fun r => r.1 == vcId)

/-- The rating records of the store that belong to one member. -/
def memberRecords (db : Db) (m : Nat) : List (Nat × Nat × Int) :=
  db.records.filter (fun r => r.2.1 == m)

/-- The store calls of a trace that refer to one VC. -/
def eventsFor (tr : List StoreEvent) (vcId : Nat) : List StoreEvent :=
  tr.filter (fun e => eventVcId e == vcId)

/-! ## codeforces.py: Elo rating engine (lines 620-637), modelled over ℝ -/

/-- `getEloWinProbability(ra, rb) = 1 / (1 + 10 ** ((rb - ra) / 400))`
(lines 620-622), with the source's float arithmetic idealized as real
arithmetic. -/
noncomputable def getEloWinProbability (ra rb : ℝ) : ℝ :=
  1 / (1 + (10 : ℝ) ^ ((rb - ra) / 400))

/-- One iteration of the binary search in `composeRatings` (lines 626-636):
compute the aggregate probability that rating `mid` beats every weighted
opponent, and shrink the bracket accordingly. -/
noncomputable def composeStep (ratings : List (ℝ × ℕ)) (lr : ℝ × ℝ) : ℝ × ℝ :=
  if ratings.foldl (fun acc q => acc * getEloWinProbability ((lr.1 + lr.2) / 2) q.1 ^ q.2) 1 < 1 / 2
  then ((lr.1 + lr.2) / 2, lr.2)
  else (lr.1, (lr.1 + lr.2) / 2)

/-- `composeRatings(left, right, ratings)` (lines 624-637): 20 binary-search
iterations, then `round((left + right) / 2)`. -/
noncomputable def composeRatings (left right : ℝ) (ratings : List (ℝ × ℕ)) : ℤ :=
  round ((((composeStep ratings)^[20] (left, right)).1 +
          ((composeStep ratings)^[20] (left, right)).2) / 2)

/-! ## Concrete fixtures used by witnesses and counterexamples -/

/-- An upstream source holding 20 items served in pages of 10 (consistent
with requesting `limit=10`, as `is_contest_parsed` does). -/
def exQ20 : Nat → Option (List Nat) := fun off =>
  if off = 0 then some (List.range 10)
  else if off = 1000 then some (List.range' 10 10)
  else some []

/-- An upstream source holding exactly 2500 items served in pages of 1000. -/
def exQ2500 : Nat → Option (List Nat) := fun off =>
  if off = 0 then some (List.range 1000)
  else if off = 1000 then some (List.range' 1000 1000)
  else if off = 2000 then some (List.range' 2000 500)
  else some []

/-- The two full pages of the 2500-item source. -/
def exPages2500 : List (List Nat) := [List.range 1000, List.range' 1000 1000]

/-- The short final page of the 2500-item source. -/
def exLast2500 : List Nat := List.range' 2000 500

/-- A call that fails with HTTP 429 on every attempt. -/
def exFail429 : Nat → Except ApiError Nat := fun _ => Except.error ApiError.callLimitExceeded

/-- A call that fails with a different error class on each attempt. -/
def exFailMix : Nat → Except ApiError Nat := fun i =>
  if i = 0 then Except.error ApiError.clientError
  else if i = 1 then Except.error ApiError.callLimitExceeded
  else Except.error ApiError.apiError

/-- A rated VC used by the settlement witness. -/
def exVcA : RatedVc := { contestId := 5, guildId := 9, startTime := 0, finishTime := 100 }

/-- Ranklist deltas for the settlement witness: handle `a` gets +7, handle
`b` did not participate. -/
def exDeltaA : String → Option Int := fun h => if h = "a" then some 7 else none

/-- Store for the settlement witness: one ongoing VC with members 10 and 11. -/
def exDbA : Db :=
  { vcs := [(1, exVcA)]
    status := fun _ => VcStatus.ongoing
    participants := fun v => if v = 1 then [10, 11] else []
    vcRating := fun m => if m = 10 then 1500 else 1400
    records := []
    trace := [] }

/-- Environment for the settlement witness: the VC is over, nothing is
pending. -/
def exEnvA : WatchEnv :=
  { channelOf := fun _ => some 3
    handleOf := fun m => if m = 10 then "a" else "b"
    ranklistDelta := fun _ => Except.ok exDeltaA
    subsOf := fun _ => Except.ok []
    now := 200 }

/-- First VC of the error-propagation fixture: its guild has no rated-VC
channel. -/
def exVcB1 : RatedVc := { contestId := 5, guildId := 7, startTime := 0, finishTime := 100 }

/-- Second VC of the error-propagation fixture: fully settleable. -/
def exVcB2 : RatedVc := { contestId := 6, guildId := 8, startTime := 0, finishTime := 100 }

/-- Store with two ongoing VCs; VC 1 will fail, VC 2 would settle. -/
def exDbB : Db :=
  { vcs := [(1, exVcB1), (2, exVcB2)]
    status := fun _ => VcStatus.ongoing
    participants := fun v => if v = 2 then [20] else []
    vcRating := fun _ => 1500
    records := []
    trace := [] }

/-- Environment in which guild 7 has no rated-VC channel but guild 8 does. -/
def exEnvB : WatchEnv :=
  { channelOf := fun g => if g = 8 then some 1 else none
    handleOf := fun _ => "x"
    ranklistDelta := fun _ => Except.ok (fun _ => some 5)
    subsOf := fun _ => Except.ok []
    now := 200 }

/-- Two VCs for the no-op witness: VC 1 already FINISHED, VC 2 ongoing. -/
def exVcC1 : RatedVc := { contestId := 5, guildId := 9, startTime := 0, finishTime := 100 }

/-- The ongoing VC of the no-op fixture. -/
def exVcC2 : RatedVc := { contestId := 6, guildId := 9, startTime := 0, finishTime := 100 }

/-- Store with an already-FINISHED VC 1 (with one existing rating record)
and an ongoing VC 2. -/
def exDbC : Db :=
  { vcs := [(1, exVcC1), (2, exVcC2)]
    status := fun v => if v = 1 then VcStatus.finished else VcStatus.ongoing
    participants := fun v => if v = 2 then [20] else if v = 1 then [99] else []
    vcRating := fun _ => 1500
    records := [(1, 99, 1600)]
    trace := [StoreEvent.updateRating 1 99 1600, StoreEvent.finishVc 1] }

/-- Environment for the no-op witness. -/
def exEnvC : WatchEnv :=
  { channelOf := fun _ => some 3
    handleOf := fun _ => "x"
    ranklistDelta := fun _ => Except.ok (fun _ => some 5)
    subsOf := fun _ => Except.ok []
    now := 200 }

/-- A submission still being judged inside the VC window. -/
def exSubD : Submission := { verdict := "TESTING", contestId := 5, relativeTimeSeconds := 50 }

/-- Store for the deferral witness: one ongoing VC with member 10. -/
def exDbD : Db :=
  { vcs := [(1, exVcA)]
    status := fun _ => VcStatus.ongoing
    participants := fun v => if v = 1 then [10] else []
    vcRating := fun _ => 1500
    records := []
    trace := [] }

/-- Environment for the deferral witness: the VC is over but member 10 has
a submission still being judged. -/
def exEnvD : WatchEnv :=
  { channelOf := fun _ => some 3
    handleOf := fun _ => "a"
    ranklistDelta := fun _ => Except.ok exDeltaA
    subsOf := fun _ => Except.ok [exSubD]
    now := 200 }

/-- An upstream rating-change entry with all fields present. -/
def exChangeGood : UpstreamChange :=
  { contest_id := 1, event := "E", handle := "h", place := 2, dateSeconds := 0,
    new_rating := some 1600, rating_change := some 100, old_rating := some 1500,
    performanceField := some 1700 }

/-- An upstream entry whose `new_rating` is null. -/
def exChangeNullNew : UpstreamChange :=
  { contest_id := 1, event := "E", handle := "h", place := 3, dateSeconds := 0,
    new_rating := none, rating_change := some 10, old_rating := some 1500,
    performanceField := none }

/-- An upstream entry whose resolved old rating is 0
(`new_rating - rating_change` with a null `old_rating`). -/
def exChangeZeroOld : UpstreamChange :=
  { contest_id := 1, event := "E", handle := "h", place := 4, dateSeconds := 0,
    new_rating := some 100, rating_change := some 100, old_rating := none,
    performanceField := none }

/-- The statistics response used by the filtering witness. -/
def exResp : List UpstreamChange := [exChangeGood, exChangeNullNew, exChangeZeroOld]

/-- The record `fetch_rating_changes` produces from `exChangeGood`. -/
def exRecGood : RatingChange :=
  { contestId := 1, contestName := "E", handle := "h", rank := 2,
    ratingUpdateTimeSeconds := 0, oldRating := 1500, newRating := 1600 }

/-! ## Helper lemmas: retry wrapper -/

theorem ratelimitGo_attempts_le {α : Type} (f : Nat → Except ApiError α) :
    ∀ (rem i : Nat) (delays : List Nat), (ratelimitGo f rem i delays).attempts ≤ i + rem := by
  intro rem
  induction rem with
  | zero => intro i delays; simp [ratelimitGo]
  | succ n ih =>
    intro i delays
    simp only [ratelimitGo]
    cases hf : f i with
    | ok a => simp [hf]
    | error e =>
      simp only [hf]
      by_cases hn : n = 0
      · simp [hn]
      · rw [if_neg hn]
        calc (ratelimitGo f n (i + 1) _).attempts ≤ (i + 1) + n := ih (i + 1) _
          _ = i + (n + 1) := by omega

theorem ratelimitGo_step_error {α : Type} (f : Nat → Except ApiError α) (n i : Nat)
    (delays : List Nat) (e : ApiError) (h : f i = Except.error e) :
    ratelimitGo f (n + 1) i delays =
      (if n = 0 then
        { result := Except.error e,
          delays := if e = ApiError.callLimitExceeded then delays ++ [20 * (i + 1)] else delays,
          attempts := i + 1 }
       else ratelimitGo f n (i + 1)
         (if e = ApiError.callLimitExceeded then delays ++ [20 * (i + 1)] else delays)) := by
  simp [ratelimitGo, h]

/-- C6 — corrected.  The `ratelimit` wrapper makes at most 3 attempts; when
all three attempts fail it surfaces the last error; but the inter-attempt
delay on a rate-limited (HTTP 429) failure is not fixed: the sleep before
attempt `i+1` lasts `20 * (i + 1)` seconds (20 s, 40 s, 60 s), and no delay
at all separates attempts after the other failure classes. -/
theorem c6_retry_behavior :
    (∀ (α : Type) (f : Nat → Except ApiError α), (ratelimitRun f).attempts ≤ 3) ∧
    (∀ (α : Type) (f : Nat → Except ApiError α) (e0 e1 e2 : ApiError),
      f 0 = Except.error e0 → f 1 = Except.error e1 → f 2 = Except.error e2 →
      (ratelimitRun f).result = Except.error e2 ∧
      (ratelimitRun f).attempts = 3 ∧
      (ratelimitRun f).delays =
        (if e0 = ApiError.callLimitExceeded then [20 * 1] else []) ++
        (if e1 = ApiError.callLimitExceeded then [20 * 2] else []) ++
        (if e2 = ApiError.callLimitExceeded then [20 * 3] else [])) := by
  constructor
  · intro α f
    have h := ratelimitGo_attempts_le f 3 0 []
    simpa [ratelimitRun] using h
  · intro α f e0 e1 e2 h0 h1 h2
    have s0 : ratelimitRun f = ratelimitGo f (2 + 1) 0 [] := rfl
    rw [s0, ratelimitGo_step_error f 2 0 [] e0 h0, if_neg (by decide : ¬(2 : Nat) = 0)]
    rw [ratelimitGo_step_error f 1 1 _ e1 h1, if_neg (by decide : ¬(1 : Nat) = 0)]
    rw [ratelimitGo_step_error f 0 2 _ e2 h2, if_pos rfl]
    refine ⟨rfl, rfl, ?_⟩
    by_cases d0 : e0 = ApiError.callLimitExceeded <;>
      by_cases d1 : e1 = ApiError.callLimitExceeded <;>
        by_cases d2 : e2 = ApiError.callLimitExceeded <;>
          simp [d0, d1, d2]

/-- C6 — counterexample to the claim as stated: on a call rate-limited at
every attempt, the sleeps last 20, 40 and 60 seconds, which is not a fixed
inter-attempt delay. -/
theorem c6_counterexample :
    (ratelimitRun exFail429).delays = [20, 40, 60] ∧
    ∀ d : Nat, (ratelimitRun exFail429).delays ≠ [d, d, d] := by
  have h0 : (ratelimitRun exFail429).delays = [20, 40, 60] := by decide
  refine ⟨h0, ?_⟩
  intro d h
  rw [h0] at h
  simp at h
  omega

/-- C6 — witness: a run whose three attempts fail with a network error, a
rate limit, and an API error surfaces the last error after 3 attempts and
sleeps only once, for 40 seconds. -/
theorem c6_retry_behavior_witness :
    exFailMix 0 = Except.error ApiError.clientError ∧
    exFailMix 1 = Except.error ApiError.callLimitExceeded ∧
    exFailMix 2 = Except.error ApiError.apiError ∧
    (ratelimitRun exFailMix).result = Except.error ApiError.apiError ∧
    (ratelimitRun exFailMix).attempts = 3 ∧
    (ratelimitRun exFailMix).delays = [40] := by
  have h := c6_retry_behavior.2 Nat exFailMix ApiError.clientError ApiError.callLimitExceeded
    ApiError.apiError rfl rfl rfl
  refine ⟨rfl, rfl, rfl, h.1, h.2.1, ?_⟩
  rw [h.2.2]
  decide

/-! ## Helper lemmas: paged fetch -/

instance {ε α : Type} [DecidableEq ε] [DecidableEq α] : DecidableEq (Except ε α) := fun x y =>
  match x, y with
  | Except.error e, Except.error f =>
    if h : e = f then Decidable.isTrue (by rw [h])
    else Decidable.isFalse (fun hc => h (Except.error.inj hc))
  | Except.error _, Except.ok _ => Decidable.isFalse (fun hc => Except.noConfusion hc)
  | Except.ok _, Except.error _ => Decidable.isFalse (fun hc => Except.noConfusion hc)
  | Except.ok a, Except.ok b =>
    if h : a = b then Decidable.isTrue (by rw [h])
    else Decidable.isFalse (fun hc => h (Except.ok.inj hc))

theorem range_map_shift (k n : Nat) :
    (List.range (n + 1)).map (fun i => 1000 * (k + i)) =
      1000 * k :: (List.range n).map (fun i => 1000 * (k + 1 + i)) := by
  rw [List.range_succ_eq_map]
  simp only [List.map_cons, List.map_map]
  congr 1
  simp only [List.map_inj_left, Function.comp_apply, List.mem_range, Nat.succ_eq_add_one]
  intro a _
  omega

theorem statisticsGo_serves (query : Nat → Option (List Nat)) :
    ∀ (pages : List (List Nat)) (lastPage : List Nat) (k fuel : Nat) (acc reqs : List Nat),
      servesFrom query (1000 * k) pages lastPage = true → pages.length < fuel →
      statisticsGo query fuel (1000 * k) acc reqs =
        some (Except.ok (acc ++ pages.flatten ++ lastPage,
          reqs ++ (List.range (pages.length + 1)).map fun i => 1000 * (k + i))) := by
  intro pages
  induction pages with
  | nil =>
    intro lastPage k fuel acc reqs hs hf
    rcases fuel with _ | f
    · omega
    · simp only [servesFrom, Bool.and_eq_true, decide_eq_true_eq] at hs
      obtain ⟨hq, hl⟩ := hs
      simp only [statisticsGo, hq]
      rw [if_pos hl]
      simp [show List.range 1 = [0] from rfl]
  | cons pg rest ih =>
    intro lastPage k fuel acc reqs hs hf
    rcases fuel with _ | f
    · simp at hf
    · simp only [servesFrom, Bool.and_eq_true, decide_eq_true_eq] at hs
      obtain ⟨⟨hq, hlen⟩, hrest⟩ := hs
      have hf' : rest.length < f := by simp at hf; omega
      simp only [statisticsGo, hq]
      rw [if_neg (by omega)]
      have hoff : 1000 * k + 1000 = 1000 * (k + 1) := by ring
      have hrest' : servesFrom query (1000 * (k + 1)) rest lastPage = true := by
        rw [← hoff]; exact hrest
      rw [hoff, ih lastPage (k + 1) f (acc ++ pg) (reqs ++ [1000 * k]) hrest' hf']
      have e1 : (acc ++ pg) ++ rest.flatten ++ lastPage =
          acc ++ (pg :: rest).flatten ++ lastPage := by
        simp [List.append_assoc]
      have e2 : (reqs ++ [1000 * k]) ++
            (List.range (rest.length + 1)).map (fun i => 1000 * (k + 1 + i)) =
          reqs ++ (List.range ((pg :: rest).length + 1)).map (fun i => 1000 * (k + i)) := by
        rw [List.append_assoc]
        congr 1
        rw [show (pg :: rest).length + 1 = (rest.length + 1) + 1 by simp,
          range_map_shift k (rest.length + 1)]
        simp [List.singleton_append]
      rw [e1, e2]

/-- C5 — corrected (amended form).  The `statistics` paging loop requests
offsets 0, 1000, 2000, ..., concatenates page contents in fetch order, and
stops exactly when a page returns fewer than the hardcoded 1000 items
(irrespective of the `limit` parameter): against a source serving full
pages `pages` and a short final page, it returns their concatenation in
order after exactly `pages.length + 1` requests. -/
theorem c5_paged_fetch_characterization (query : Nat → Option (List Nat))
    (pages : List (List Nat)) (lastPage : List Nat) (fuel : Nat)
    (hserves : servesFrom query 0 pages lastPage = true)
    (hfuel : pages.length < fuel) :
    statistics query fuel =
      some (Except.ok (pages.flatten ++ lastPage,
        (List.range (pages.length + 1)).map fun i => 1000 * i)) := by
  have h := statisticsGo_serves query pages lastPage 0 fuel [] []
    (by simpa using hserves) hfuel
  simpa [statistics] using h

/-- C5 — counterexample to the claim as stated: with `limit = 10` (as
`is_contest_parsed` requests) against a source of 20 items served in pages
of 10, the code stops after the first page — a page holding exactly `limit`
items — and returns only 10 items from one request, while the claimed
stopping rule (fewer than `limit` items) would collect all 20 over three
requests. -/
theorem c5_counterexample :
    statistics exQ20 5 = some (Except.ok (List.range 10, [0])) ∧
    statisticsSpec exQ20 10 5 = some (Except.ok (List.range 20, [0, 1000, 2000])) ∧
    statistics exQ20 5 ≠ statisticsSpec exQ20 10 5 := by
  have h1 : statistics exQ20 5 = some (Except.ok (List.range 10, [0])) := by decide
  have h2 : statisticsSpec exQ20 10 5 =
      some (Except.ok (List.range 20, [0, 1000, 2000])) := by decide
  refine ⟨h1, h2, ?_⟩
  intro h
  rw [h1, h2] at h
  simp only [Option.some.injEq, Except.ok.injEq, Prod.mk.injEq] at h
  exact absurd h.2 (by decide)

/-- C5 — witness: against a source holding exactly 2500 items served in
pages of 1000, the loop returns all 2500 items in original order using
exactly 3 page requests at offsets 0, 1000, 2000. -/
theorem c5_paged_fetch_characterization_witness :
    servesFrom exQ2500 0 exPages2500 exLast2500 = true ∧
    exPages2500.length < 3 ∧
    statistics exQ2500 3 = some (Except.ok (List.range 2500, [0, 1000, 2000])) := by
  have hserves : servesFrom exQ2500 0 exPages2500 exLast2500 = true := by
    simp only [servesFrom, exPages2500, exLast2500, Bool.and_eq_true, decide_eq_true_eq]
    refine ⟨⟨rfl, ?_⟩, ⟨rfl, ?_⟩, rfl, ?_⟩ <;> simp [List.length_range']
  have h := c5_paged_fetch_characterization exQ2500 exPages2500 exLast2500 3
    hserves (by decide)
  refine ⟨hserves, by decide, ?_⟩
  rw [h]
  have e1 : exPages2500.flatten ++ exLast2500 = List.range 2500 := by
    simp only [exPages2500, exLast2500, List.flatten_cons, List.flatten_nil, List.append_nil]
    rw [List.range_eq_range', List.append_assoc]
    have h1 := List.range'_append_1 1000 1000 500
    norm_num at h1
    rw [h1]
    have h2 := List.range'_append_1 0 1000 1500
    norm_num at h2
    rw [h2, List.range_eq_range' 2500]
  have e2 : (List.range (exPages2500.length + 1)).map (fun i => 1000 * i) =
      [0, 1000, 2000] := by decide
  rw [e1, e2]

/-- C7 — confirmed.  `cache(forced)` fetches upstream iff `forced` or at
least `_CLIST_API_TIME_DIFFERENCE` (30 minutes) elapsed since the stored
query time; a non-forced refresh within the TTL of a refresh that fetched
does not fetch again; a forced refresh always fetches. -/
theorem c7_refresh_ttl :
    (∀ (forced : Bool) (now : Int) (db : Option Int),
      (cache forced now db).1 = (forced || decide (clistApiTimeDifference ≤ now - db.getD 0))) ∧
    (∀ (t0 t1 : Int) (db0 : Option Int),
      (cache false t0 db0).1 = true → t1 - t0 < clistApiTimeDifference →
      (cache false t1 (cache false t0 db0).2).1 = false) ∧
    (∀ (now : Int) (db : Option Int), (cache true now db).1 = true) := by
  refine ⟨?_, ?_, ?_⟩
  · intro forced now db
    rcases db with _ | t <;> rcases forced with _ | _ <;>
      · simp only [cache, Option.getD, Bool.false_or, Bool.true_or]
        split_ifs with h <;> simp_all <;> omega
  · intro t0 t1 db0 hfetch hwin
    have hstate : (cache false t0 db0).2 = some t0 := by
      rcases db0 with _ | t <;> simp only [cache] at hfetch ⊢ <;>
        split_ifs at hfetch ⊢ with h <;> simp_all
    rw [hstate]
    simp only [cache]
    rw [if_pos]
    exact ⟨by simp, hwin⟩
  · intro now db
    unfold cache
    rw [if_neg]
    simp

/-- C7 — witness: starting from an empty cache file, a refresh at time 5000
fetches; a second non-forced refresh 1000 seconds later does not; a forced
refresh always fetches. -/
theorem c7_refresh_ttl_witness :
    (cache false 5000 none).1 = true ∧
    ((6000 : Int) - 5000 < clistApiTimeDifference) ∧
    (cache false 6000 (cache false 5000 none).2).1 = false ∧
    (cache true 0 none).1 = true := by
  exact ⟨by decide, by decide,
    c7_refresh_ttl.2.1 5000 6000 none (by decide) (by decide),
    c7_refresh_ttl.2.2 0 none⟩

/-! ## Helper lemmas: VC settlement -/

theorem collectSubs_mem {subsOf : String → Except WatchError (List Submission)} :
    ∀ {hs : List String} {ls : List (List Submission)} {h : String} {l : List Submission},
      collectSubs subsOf hs = Except.ok ls → h ∈ hs → subsOf h = Except.ok l → l ∈ ls := by
  intro hs
  induction hs with
  | nil => intro ls h l hcs hh _; simp at hh
  | cons h0 t ih =>
    intro ls h l hcs hh hf
    simp only [collectSubs] at hcs
    cases hf0 : subsOf h0 with
    | error e => rw [hf0] at hcs; exact absurd hcs (by simp)
    | ok l0 =>
      rw [hf0] at hcs
      cases hct : collectSubs subsOf t with
      | error e => rw [hct] at hcs; exact absurd hcs (by simp)
      | ok ls0 =>
        rw [hct] at hcs
        obtain rfl := Except.ok.inj hcs
        rcases List.mem_cons.mp hh with rfl | hht
        · rw [hf0] at hf
          obtain rfl := Except.ok.inj hf
          exact List.mem_cons_self _ _
        · exact List.mem_cons_of_mem _ (ih hct hht hf)

theorem zip_map_self {α β : Type} (f : α → β) :
    ∀ l : List α, (l.map f).zip l = l.map fun a => (f a, a) := by
  intro l
  induction l with
  | nil => rfl
  | cons a t ih => simp [ih]

theorem settleLoop_append (vcId : Nat) (delta : String → Option Int) :
    ∀ (p q : List (String × Nat)) (db : Db),
      settleLoop vcId delta (p ++ q) db = settleLoop vcId delta q (settleLoop vcId delta p db) := by
  intro p
  induction p with
  | nil => intro q db; rfl
  | cons hd rest ih =>
    intro q db
    obtain ⟨h, m⟩ := hd
    cases hd : delta h <;> simp only [settleLoop, List.cons_append, hd] <;> exact ih q _

theorem settleLoop_status (vcId : Nat) (delta : String → Option Int) :
    ∀ (pairs : List (String × Nat)) (db : Db),
      (settleLoop vcId delta pairs db).status = db.status := by
  intro pairs
  induction pairs with
  | nil => intro db; rfl
  | cons hd rest ih =>
    intro db
    obtain ⟨h, m⟩ := hd
    cases hdl : delta h
    · simp only [settleLoop, hdl]
      rw [ih]
      rfl
    · simp only [settleLoop, hdl]
      rw [ih]
      rfl

theorem settleLoop_vcs (vcId : Nat) (delta : String → Option Int) :
    ∀ (pairs : List (String × Nat)) (db : Db),
      (settleLoop vcId delta pairs db).vcs = db.vcs := by
  intro pairs
  induction pairs with
  | nil => intro db; rfl
  | cons hd rest ih =>
    intro db
    obtain ⟨h, m⟩ := hd
    cases hdl : delta h
    · simp only [settleLoop, hdl]
      rw [ih]
      rfl
    · simp only [settleLoop, hdl]
      rw [ih]
      rfl

theorem settleLoop_untouched (vcId : Nat) (delta : String → Option Int) :
    ∀ (pairs : List (String × Nat)) (db : Db) (m : Nat),
      m ∉ pairs.map Prod.snd →
      (settleLoop vcId delta pairs db).vcRating m = db.vcRating m ∧
      memberRecords (settleLoop vcId delta pairs db) m = memberRecords db m ∧
      ∀ v, (m ∈ (settleLoop vcId delta pairs db).participants v ↔ m ∈ db.participants v) := by
  intro pairs
  induction pairs with
  | nil => intro db m _; exact ⟨rfl, rfl, fun _ => Iff.rfl⟩
  | cons hd rest ih =>
    intro db m hm
    obtain ⟨h, m'⟩ := hd
    simp only [List.map_cons, List.mem_cons, not_or] at hm
    obtain ⟨hne, hrest⟩ := hm
    cases hdl : delta h with
    | none =>
      simp only [settleLoop, hdl]
      have hstep := ih (removeParticipation db vcId m') m hrest
      refine ⟨hstep.1, by rw [hstep.2.1]; rfl, ?_⟩
      intro v
      rw [hstep.2.2 v]
      simp only [removeParticipation]
      by_cases hv : v = vcId
      · subst hv
        simp [List.mem_filter, hne]
      · simp [hv]
    | some d =>
      simp only [settleLoop, hdl]
      have hstep := ih (updateVcRating db vcId m' (db.vcRating m' + d)) m hrest
      refine ⟨?_, ?_, ?_⟩
      · rw [hstep.1]
        simp [updateVcRating, hne]
      · rw [hstep.2.1]
        simp [memberRecords, updateVcRating, List.filter_append, Ne.symm hne]
      · intro v
        rw [hstep.2.2 v]
        exact Iff.rfl

theorem settleLoop_other (vcId : Nat) (delta : String → Option Int) :
    ∀ (pairs : List (String × Nat)) (db : Db) (w : Nat), w ≠ vcId →
      (settleLoop vcId delta pairs db).participants w = db.participants w ∧
      recordsFor (settleLoop vcId delta pairs db) w = recordsFor db w := by
  intro pairs
  induction pairs with
  | nil => intro db w _; exact ⟨rfl, rfl⟩
  | cons hd rest ih =>
    intro db w hw
    obtain ⟨h, m'⟩ := hd
    cases hdl : delta h with
    | none =>
      simp only [settleLoop, hdl]
      have hstep := ih (removeParticipation db vcId m') w hw
      refine ⟨?_, by rw [hstep.2]; rfl⟩
      rw [hstep.1]
      simp [removeParticipation, hw]
    | some d =>
      simp only [settleLoop, hdl]
      have hstep := ih (updateVcRating db vcId m' (db.vcRating m' + d)) w hw
      refine ⟨hstep.1, ?_⟩
      rw [hstep.2]
      simp [recordsFor, updateVcRating, List.filter_append, Ne.symm hw]

theorem settleLoop_trace (vcId : Nat) (delta : String → Option Int) :
    ∀ (pairs : List (String × Nat)) (db : Db),
      ∃ mid, (settleLoop vcId delta pairs db).trace = db.trace ++ mid ∧
        ∀ e ∈ mid, eventVcId e = vcId ∧ ∀ w, e ≠ StoreEvent.finishVc w := by
  intro pairs
  induction pairs with
  | nil => intro db; exact ⟨[], by simp [settleLoop], by simp⟩
  | cons hd rest ih =>
    intro db
    obtain ⟨h, m'⟩ := hd
    cases hdl : delta h with
    | none =>
      simp only [settleLoop, hdl]
      obtain ⟨mid, hmid, hall⟩ := ih (removeParticipation db vcId m')
      refine ⟨StoreEvent.removeParticipation vcId m' :: mid, ?_, ?_⟩
      · rw [hmid]
        simp [removeParticipation]
      · intro e he
        rcases List.mem_cons.mp he with rfl | he'
        · exact ⟨rfl, fun w hc => StoreEvent.noConfusion hc⟩
        · exact hall e he'
    | some d =>
      simp only [settleLoop, hdl]
      obtain ⟨mid, hmid, hall⟩ := ih (updateVcRating db vcId m' (db.vcRating m' + d))
      refine ⟨StoreEvent.updateRating vcId m' (db.vcRating m' + d) :: mid, ?_, ?_⟩
      · rw [hmid]
        simp [updateVcRating]
      · intro e he
        rcases List.mem_cons.mp he with rfl | he'
        · exact ⟨rfl, fun w hc => StoreEvent.noConfusion hc⟩
        · exact hall e he'

theorem eventsFor_append (a b : List StoreEvent) (w : Nat) :
    eventsFor (a ++ b) w = eventsFor a w ++ eventsFor b w := by
  simp [eventsFor, List.filter_append]

theorem eventsFor_of_ne (mid : List StoreEvent) (vcId w : Nat) (hw : w ≠ vcId)
    (hall : ∀ e ∈ mid, eventVcId e = vcId) : eventsFor mid w = [] := by
  rw [eventsFor, List.filter_eq_nil_iff]
  intro e he
  simp only [hall e he, beq_iff_eq]
  exact fun hc => hw hc.symm

theorem mem_ongoing_status (db : Db) (v : Nat) :
    v ∈ getOngoingRatedVcIds db → db.status v = VcStatus.ongoing := by
  intro hv
  rw [getOngoingRatedVcIds, List.mem_map] at hv
  obtain ⟨p, hp, rfl⟩ := hv
  have := (List.mem_filter.mp hp).2
  simpa using this

/-- C3 — confirmed.  For an ongoing VC whose finish time has not passed, or
with a pending (verdict TESTING) submission by a participant against the
VC's contest inside the VC window, the settlement step performs no state
change: the store is returned unchanged — no rating record, no participant
removal, no status change. -/
theorem c3_deferral_no_state_change (env : WatchEnv) (db : Db) (vcId : Nat) (vc : RatedVc)
    (hvc : db.vcs.lookup vcId = some vc)
    (hcond : env.now < vc.finishTime ∨
      ∃ m, m ∈ db.participants vcId ∧
        ∃ l, env.subsOf (env.handleOf m) = Except.ok l ∧
          ∃ s, s ∈ l ∧ s.verdict = "TESTING" ∧ s.contestId = vc.contestId ∧
            0 ≤ s.relativeTimeSeconds ∧
            s.relativeTimeSeconds ≤ vc.finishTime - vc.startTime) :
    (watchRatedVc env db vcId).1 = db ∧
    (watchRatedVc env db vcId).1.records = db.records ∧
    (watchRatedVc env db vcId).1.status vcId = db.status vcId ∧
    (watchRatedVc env db vcId).1.participants vcId = db.participants vcId := by
  have hmain : (watchRatedVc env db vcId).1 = db := by
    simp only [watchRatedVc, hvc]
    cases hch : env.channelOf vc.guildId with
    | none => rfl
    | some ch =>
      cases hrk : env.ranklistDelta vcId with
      | error e => rfl
      | ok delta =>
        cases hcs : collectSubs env.subsOf ((db.participants vcId).map env.handleOf) with
        | error e => rfl
        | ok ls =>
          rcases hcond with htime | hpend
          · have hb : decide (env.now < vc.finishTime) = true := decide_eq_true htime
            simp [hb]
          · obtain ⟨m, hm, l, hsub, s, hsl, hverdict, hcontest, _, hrel⟩ := hpend
            have hmem : env.handleOf m ∈ (db.participants vcId).map env.handleOf :=
              List.mem_map_of_mem _ hm
            have hls : l ∈ ls := collectSubs_mem hcs hmem hsub
            have hsmem : s ∈ hasRunningSubs vc l := by
              rw [hasRunningSubs, List.mem_filter]
              refine ⟨hsl, ?_⟩
              simp [hverdict, hcontest, hrel]
            have hflag : ls.any (fun l => !(hasRunningSubs vc l).isEmpty) = true := by
              rw [List.any_eq_true]
              refine ⟨l, hls, ?_⟩
              have hne : hasRunningSubs vc l ≠ [] := List.ne_nil_of_mem hsmem
              simp [List.isEmpty_iff, hne]
            simp [hflag]
  exact ⟨hmain, by rw [hmain], by rw [hmain], by rw [hmain]⟩

/-- C3 — witness: a VC whose finish time has passed but with a submission
still being judged inside the window is deferred with no state change. -/
theorem c3_deferral_no_state_change_witness :
    exDbD.vcs.lookup 1 = some exVcA ∧
    (10 ∈ exDbD.participants 1 ∧ exEnvD.subsOf (exEnvD.handleOf 10) = Except.ok [exSubD] ∧
      exSubD ∈ [exSubD] ∧ exSubD.verdict = "TESTING" ∧ exSubD.contestId = exVcA.contestId ∧
      (0 : Int) ≤ exSubD.relativeTimeSeconds ∧
      exSubD.relativeTimeSeconds ≤ exVcA.finishTime - exVcA.startTime) ∧
    (watchRatedVc exEnvD exDbD 1).1 = exDbD ∧
    (watchRatedVc exEnvD exDbD 1).1.records = exDbD.records ∧
    (watchRatedVc exEnvD exDbD 1).1.status 1 = exDbD.status 1 ∧
    (watchRatedVc exEnvD exDbD 1).1.participants 1 = exDbD.participants 1 := by
  have h := c3_deferral_no_state_change exEnvD exDbD 1 exVcA rfl
    (Or.inr ⟨10, by decide, [exSubD], rfl, exSubD, by decide, rfl, rfl, by decide, by decide⟩)
  exact ⟨rfl, ⟨by decide, rfl, by decide, rfl, rfl, by decide, by decide⟩, h.1, h.2.1, h.2.2.1, h.2.2.2⟩

theorem map_snd_pairs {α β : Type} (f : α → β) (l : List α) :
    (l.map fun a => (f a, a)).map Prod.snd = l := by
  induction l with
  | nil => rfl
  | cons a t ih => simp [ih]

/-- C2 — confirmed.  When a VC settles (finish time passed, nothing pending),
every participant whose handle has no delta in the generated ranklist is
removed from the VC's participant set and receives no rating record; every
participant with a delta receives exactly one new rating record valued at
their current rating plus the delta (and that becomes their current rating);
and the VC is marked FINISHED. -/
theorem c2_settlement_effects (env : WatchEnv) (db : Db) (vcId : Nat) (vc : RatedVc)
    (ch : Nat) (delta : String → Option Int) (ls : List (List Submission))
    (hvc : db.vcs.lookup vcId = some vc)
    (hch : env.channelOf vc.guildId = some ch)
    (hrk : env.ranklistDelta vcId = Except.ok delta)
    (hcs : collectSubs env.subsOf ((db.participants vcId).map env.handleOf) = Except.ok ls)
    (hflag : (ls.any fun l => !(hasRunningSubs vc l).isEmpty) = false)
    (htime : vc.finishTime ≤ env.now)
    (hnodup : (db.participants vcId).Nodup) :
    (watchRatedVc env db vcId).2 = none ∧
    (watchRatedVc env db vcId).1.status vcId = VcStatus.finished ∧
    ∀ m ∈ db.participants vcId,
      (delta (env.handleOf m) = none →
        m ∉ (watchRatedVc env db vcId).1.participants vcId ∧
        memberRecords (watchRatedVc env db vcId).1 m = memberRecords db m) ∧
      ∀ d, delta (env.handleOf m) = some d →
        memberRecords (watchRatedVc env db vcId).1 m =
          memberRecords db m ++ [(vcId, m, db.vcRating m + d)] ∧
        (watchRatedVc env db vcId).1.vcRating m = db.vcRating m + d := by
  have hb1 : decide (env.now < vc.finishTime) = false := decide_eq_false (not_lt.mpr htime)
  have hbranch : watchRatedVc env db vcId =
      (finishRatedVc (settleLoop vcId delta
        (((db.participants vcId).map env.handleOf).zip (db.participants vcId)) db) vcId,
       none) := by
    simp [watchRatedVc, hvc, hch, hrk, hcs, hb1, hflag]
  rw [hbranch]
  have hzip : ((db.participants vcId).map env.handleOf).zip (db.participants vcId) =
      (db.participants vcId).map fun a => (env.handleOf a, a) := zip_map_self env.handleOf _
  simp only [hzip]
  refine ⟨by trivial, ?_, ?_⟩
  · simp [finishRatedVc]
  · intro m hm
    obtain ⟨s, t, hst⟩ := List.append_of_mem hm
    have hnodM : m ∉ s ∧ m ∉ t := by
      rw [hst, List.nodup_middle, List.nodup_cons] at hnodup
      exact ⟨fun hc => hnodup.1 (List.mem_append_left _ hc),
             fun hc => hnodup.1 (List.mem_append_right _ hc)⟩
    have hsplit : (db.participants vcId).map (fun a => (env.handleOf a, a)) =
        s.map (fun a => (env.handleOf a, a)) ++
          (env.handleOf m, m) :: t.map (fun a => (env.handleOf a, a)) := by
      rw [hst]
      simp
    rw [hsplit, settleLoop_append]
    set db1 := settleLoop vcId delta (s.map fun a => (env.handleOf a, a)) db with hdb1
    have hu1 := settleLoop_untouched vcId delta (s.map fun a => (env.handleOf a, a)) db m
      (by rw [map_snd_pairs]; exact hnodM.1)
    constructor
    · intro hdm
      have hstep : settleLoop vcId delta
            ((env.handleOf m, m) :: t.map fun a => (env.handleOf a, a)) db1 =
          settleLoop vcId delta (t.map fun a => (env.handleOf a, a))
            (removeParticipation db1 vcId m) := by
        simp only [settleLoop, hdm]
      rw [hstep]
      have hu2 := settleLoop_untouched vcId delta (t.map fun a => (env.handleOf a, a))
        (removeParticipation db1 vcId m) m (by rw [map_snd_pairs]; exact hnodM.2)
      constructor
      · intro hc
        have hc' : m ∈ (settleLoop vcId delta (t.map fun a => (env.handleOf a, a))
            (removeParticipation db1 vcId m)).participants vcId := hc
        rw [hu2.2.2 vcId] at hc'
        simp [removeParticipation, List.mem_filter] at hc'
      · have e1 : memberRecords (finishRatedVc (settleLoop vcId delta
              (t.map fun a => (env.handleOf a, a)) (removeParticipation db1 vcId m)) vcId) m =
            memberRecords (settleLoop vcId delta (t.map fun a => (env.handleOf a, a))
              (removeParticipation db1 vcId m)) m := rfl
        rw [e1, hu2.2.1]
        exact hu1.2.1
    · intro d hdm
      have hstep : settleLoop vcId delta
            ((env.handleOf m, m) :: t.map fun a => (env.handleOf a, a)) db1 =
          settleLoop vcId delta (t.map fun a => (env.handleOf a, a))
            (updateVcRating db1 vcId m (db1.vcRating m + d)) := by
        simp only [settleLoop, hdm]
      rw [hstep]
      have hu2 := settleLoop_untouched vcId delta (t.map fun a => (env.handleOf a, a))
        (updateVcRating db1 vcId m (db1.vcRating m + d)) m
        (by rw [map_snd_pairs]; exact hnodM.2)
      have hrat1 : db1.vcRating m = db.vcRating m := hu1.1
      constructor
      · have e1 : memberRecords (finishRatedVc (settleLoop vcId delta
              (t.map fun a => (env.handleOf a, a))
              (updateVcRating db1 vcId m (db1.vcRating m + d))) vcId) m =
            memberRecords (settleLoop vcId delta (t.map fun a => (env.handleOf a, a))
              (updateVcRating db1 vcId m (db1.vcRating m + d))) m := rfl
        rw [e1, hu2.2.1]
        have e2 : memberRecords (updateVcRating db1 vcId m (db1.vcRating m + d)) m =
            memberRecords db1 m ++ [(vcId, m, db1.vcRating m + d)] := by
          simp [memberRecords, updateVcRating, List.filter_append]
        rw [e2, hu1.2.1, hrat1]
      · have e3 : (finishRatedVc (settleLoop vcId delta
              (t.map fun a => (env.handleOf a, a))
              (updateVcRating db1 vcId m (db1.vcRating m + d))) vcId).vcRating m =
            (settleLoop vcId delta (t.map fun a => (env.handleOf a, a))
              (updateVcRating db1 vcId m (db1.vcRating m + d))).vcRating m := rfl
        rw [e3, hu2.1]
        have e4 : (updateVcRating db1 vcId m (db1.vcRating m + d)).vcRating m =
            db1.vcRating m + d := by
          simp [updateVcRating]
        rw [e4, hrat1]

/-- C2 — witness: a settled VC with members 10 (delta +7, rating 1500) and
11 (no delta): member 11 is removed and unrated, member 10 gets exactly one
record at 1507, and the VC is FINISHED. -/
theorem c2_settlement_effects_witness :
    exDbA.vcs.lookup 1 = some exVcA ∧
    exEnvA.channelOf exVcA.guildId = some 3 ∧
    exEnvA.ranklistDelta 1 = Except.ok exDeltaA ∧
    collectSubs exEnvA.subsOf ((exDbA.participants 1).map exEnvA.handleOf) =
      Except.ok [[], []] ∧
    (([[], []] : List (List Submission)).any fun l => !(hasRunningSubs exVcA l).isEmpty)
      = false ∧
    exVcA.finishTime ≤ exEnvA.now ∧
    (exDbA.participants 1).Nodup ∧
    (watchRatedVc exEnvA exDbA 1).2 = none ∧
    (watchRatedVc exEnvA exDbA 1).1.status 1 = VcStatus.finished ∧
    (11 ∉ (watchRatedVc exEnvA exDbA 1).1.participants 1 ∧
      memberRecords (watchRatedVc exEnvA exDbA 1).1 11 = memberRecords exDbA 11) ∧
    (memberRecords (watchRatedVc exEnvA exDbA 1).1 10 =
        memberRecords exDbA 10 ++ [(1, 10, exDbA.vcRating 10 + 7)] ∧
      (watchRatedVc exEnvA exDbA 1).1.vcRating 10 = exDbA.vcRating 10 + 7) := by
  have h := c2_settlement_effects exEnvA exDbA 1 exVcA 3 exDeltaA [[], []]
    rfl rfl rfl rfl (by decide) (by decide) (by decide)
  refine ⟨rfl, rfl, rfl, rfl, by decide, by decide, by decide, h.1, h.2.1, ?_, ?_⟩
  · exact (h.2.2 11 (by decide)).1 rfl
  · exact (h.2.2 10 (by decide)).2 7 rfl

theorem watchLoop_append (env : WatchEnv) :
    ∀ (ids1 : List Nat) (db db1 : Db), watchLoop env db ids1 = (db1, none) →
      ∀ ids2, watchLoop env db (ids1 ++ ids2) = watchLoop env db1 ids2 := by
  intro ids1
  induction ids1 with
  | nil =>
    intro db db1 h ids2
    simp only [watchLoop] at h
    injection h with h1 _
    subst h1
    rfl
  | cons v rest ih =>
    intro db db1 h ids2
    rcases hw : watchRatedVc env db v with ⟨db', oe⟩
    cases oe with
    | none =>
      simp only [watchLoop, hw] at h
      simp only [List.cons_append, watchLoop, hw]
      exact ih db' db1 h ids2
    | some e =>
      simp only [watchLoop, hw] at h
      exact absurd (congrArg Prod.snd h) (by simp)

/-- C1 — corrected (amended form).  The `_watch_rated_vcs_task` loop has no
per-VC error handling: when the VCs listed before `v` process cleanly and
processing `v` raises, the whole tick stops at `v`'s failure — the VCs
after `v` in the ongoing listing are not processed this tick and the error
propagates out of the loop. -/
theorem c1_error_aborts_tick (env : WatchEnv) (db : Db) (ids1 ids2 : List Nat) (v : Nat)
    (db1 : Db) (e : WatchError)
    (hlist : getOngoingRatedVcIds db = ids1 ++ v :: ids2)
    (hpre : watchLoop env db ids1 = (db1, none))
    (herr : (watchRatedVc env db1 v).2 = some e) :
    watchRatedVcsTask env db = ((watchRatedVc env db1 v).1, some e) := by
  rw [watchRatedVcsTask, hlist, watchLoop_append env ids1 db db1 hpre]
  rcases hw : watchRatedVc env db1 v with ⟨db', oe⟩
  rw [hw] at herr
  simp only at herr
  subst herr
  simp [watchLoop, hw]

/-- C1 — counterexample to the claim as stated: with two ongoing VCs where
the first raises (its guild has no rated-VC channel) and the second would
settle cleanly, the tick surfaces the error, leaves the second VC ONGOING
and issues no store call at all — the first VC's failure does prevent the
remaining VC from being processed. -/
theorem c1_counterexample :
    (watchRatedVcsTask exEnvB exDbB).2 = some WatchError.noChannel ∧
    (watchRatedVcsTask exEnvB exDbB).1.status 2 = VcStatus.ongoing ∧
    (watchRatedVcsTask exEnvB exDbB).1.trace = [] ∧
    (watchRatedVc exEnvB exDbB 2).2 = none ∧
    (watchRatedVc exEnvB exDbB 2).1.status 2 = VcStatus.finished := by decide

/-- C1 — witness: the ongoing listing is `[1, 2]`, the prefix before VC 1 is
empty, VC 1 raises for a missing channel, and the task stops there. -/
theorem c1_error_aborts_tick_witness :
    getOngoingRatedVcIds exDbB = [] ++ 1 :: [2] ∧
    watchLoop exEnvB exDbB [] = (exDbB, none) ∧
    (watchRatedVc exEnvB exDbB 1).2 = some WatchError.noChannel ∧
    watchRatedVcsTask exEnvB exDbB =
      ((watchRatedVc exEnvB exDbB 1).1, some WatchError.noChannel) := by
  refine ⟨by decide, rfl, by decide,
    c1_error_aborts_tick exEnvB exDbB [] [2] 1 exDbB WatchError.noChannel (by decide) rfl
      (by decide)⟩

theorem watchRatedVc_preserves (env : WatchEnv) (db : Db) (v w : Nat) (hw : w ≠ v) :
    recordsFor (watchRatedVc env db v).1 w = recordsFor db w ∧
    (watchRatedVc env db v).1.status w = db.status w ∧
    (watchRatedVc env db v).1.participants w = db.participants w ∧
    eventsFor (watchRatedVc env db v).1.trace w = eventsFor db.trace w := by
  cases hvc : db.vcs.lookup v with
  | none => simp [watchRatedVc, hvc]
  | some vc =>
    cases hch : env.channelOf vc.guildId with
    | none => simp [watchRatedVc, hvc, hch]
    | some ch =>
      cases hrk : env.ranklistDelta v with
      | error e => simp [watchRatedVc, hvc, hch, hrk]
      | ok delta =>
        cases hcs : collectSubs env.subsOf ((db.participants v).map env.handleOf) with
        | error e => simp [watchRatedVc, hvc, hch, hrk, hcs]
        | ok ls =>
          by_cases hdef : (decide (env.now < vc.finishTime) ||
              ls.any fun l => !(hasRunningSubs vc l).isEmpty) = true
          · simp [watchRatedVc, hvc, hch, hrk, hcs, hdef]
          · have hbranch : watchRatedVc env db v =
                (finishRatedVc (settleLoop v delta
                  (((db.participants v).map env.handleOf).zip (db.participants v)) db) v,
                 none) := by
              simp only [watchRatedVc, hvc, hch, hrk, hcs]
              rw [if_neg hdef]
            rw [hbranch]
            obtain ⟨ho1, ho2⟩ := settleLoop_other v delta
              (((db.participants v).map env.handleOf).zip (db.participants v)) db w hw
            obtain ⟨mid, hmid, hall⟩ := settleLoop_trace v delta
              (((db.participants v).map env.handleOf).zip (db.participants v)) db
            refine ⟨ho2, ?_, ho1, ?_⟩
            · have hst := congrFun (settleLoop_status v delta
                (((db.participants v).map env.handleOf).zip (db.participants v)) db) w
              simp only [finishRatedVc]
              rw [if_neg hw]
              exact hst
            · have htr : (finishRatedVc (settleLoop v delta
                  (((db.participants v).map env.handleOf).zip (db.participants v)) db) v).trace =
                  (db.trace ++ mid) ++ [StoreEvent.finishVc v] := by
                simp only [finishRatedVc]
                rw [hmid]
              rw [htr, eventsFor_append, eventsFor_append]
              rw [eventsFor_of_ne mid v w hw (fun e he => (hall e he).1)]
              have hvw : ¬v = w := fun hc => hw hc.symm
              have hfin : eventsFor [StoreEvent.finishVc v] w = [] := by
                simp [eventsFor, eventVcId, hvw]
              rw [hfin]
              simp

theorem watchLoop_preserves (env : WatchEnv) :
    ∀ (ids : List Nat) (db : Db) (w : Nat), w ∉ ids →
      recordsFor (watchLoop env db ids).1 w = recordsFor db w ∧
      (watchLoop env db ids).1.status w = db.status w ∧
      (watchLoop env db ids).1.participants w = db.participants w ∧
      eventsFor (watchLoop env db ids).1.trace w = eventsFor db.trace w := by
  intro ids
  induction ids with
  | nil => intro db w _; exact ⟨rfl, rfl, rfl, rfl⟩
  | cons v rest ih =>
    intro db w hw
    simp only [List.mem_cons, not_or] at hw
    obtain ⟨hwv, hwrest⟩ := hw
    have hstep := watchRatedVc_preserves env db v w hwv
    rcases hcall : watchRatedVc env db v with ⟨db', oe⟩
    rw [hcall] at hstep
    cases oe with
    | none =>
      simp only [watchLoop, hcall]
      have hrest := ih db' w hwrest
      exact ⟨hrest.1.trans hstep.1, hrest.2.1.trans hstep.2.1,
        hrest.2.2.1.trans hstep.2.2.1, hrest.2.2.2.trans hstep.2.2.2⟩
    | some e =>
      simp only [watchLoop, hcall]
      exact hstep

/-- C4 — confirmed.  A FINISHED VC is not in the ongoing listing the tick
iterates over, so a tick is a no-op for it: its rating records, status,
participant set and store-call log are untouched; and for a VC that does
settle, the FINISHED status is the last store call, written only after all
rating updates and removals. -/
theorem c4_finished_vc_noop :
    (∀ (env : WatchEnv) (db : Db) (vcF : Nat), db.status vcF = VcStatus.finished →
      recordsFor (watchRatedVcsTask env db).1 vcF = recordsFor db vcF ∧
      (watchRatedVcsTask env db).1.status vcF = VcStatus.finished ∧
      (watchRatedVcsTask env db).1.participants vcF = db.participants vcF ∧
      eventsFor (watchRatedVcsTask env db).1.trace vcF = eventsFor db.trace vcF) ∧
    (∀ (env : WatchEnv) (db : Db) (vcId : Nat) (vc : RatedVc) (ch : Nat)
        (delta : String → Option Int) (ls : List (List Submission)),
      db.vcs.lookup vcId = some vc →
      env.channelOf vc.guildId = some ch →
      env.ranklistDelta vcId = Except.ok delta →
      collectSubs env.subsOf ((db.participants vcId).map env.handleOf) = Except.ok ls →
      (ls.any fun l => !(hasRunningSubs vc l).isEmpty) = false →
      vc.finishTime ≤ env.now →
      ∃ mid, (watchRatedVc env db vcId).1.trace =
          db.trace ++ mid ++ [StoreEvent.finishVc vcId] ∧
        ∀ e ∈ mid, ∀ w, e ≠ StoreEvent.finishVc w) := by
  constructor
  · intro env db vcF hfin
    have hnot : vcF ∉ getOngoingRatedVcIds db := by
      intro hc
      have := mem_ongoing_status db vcF hc
      rw [hfin] at this
      exact VcStatus.noConfusion this
    have hp := watchLoop_preserves env (getOngoingRatedVcIds db) db vcF hnot
    rw [watchRatedVcsTask]
    exact ⟨hp.1, by rw [hp.2.1, hfin], hp.2.2.1, hp.2.2.2⟩
  · intro env db vcId vc ch delta ls hvc hch hrk hcs hflag htime
    have hb1 : decide (env.now < vc.finishTime) = false := decide_eq_false (not_lt.mpr htime)
    have hbranch : watchRatedVc env db vcId =
        (finishRatedVc (settleLoop vcId delta
          (((db.participants vcId).map env.handleOf).zip (db.participants vcId)) db) vcId,
         none) := by
      simp [watchRatedVc, hvc, hch, hrk, hcs, hb1, hflag]
    obtain ⟨mid, hmid, hall⟩ := settleLoop_trace vcId delta
      (((db.participants vcId).map env.handleOf).zip (db.participants vcId)) db
    refine ⟨mid, ?_, fun e he => (hall e he).2⟩
    rw [hbranch]
    simp only [finishRatedVc]
    rw [hmid]

/-- C4 — witness: a tick over a store holding FINISHED VC 1 (with an
existing record) and ongoing VC 2 leaves VC 1's records, status,
participants and store-call log untouched, and VC 2's settlement writes
FINISHED as its last store call. -/
theorem c4_finished_vc_noop_witness :
    exDbC.status 1 = VcStatus.finished ∧
    recordsFor (watchRatedVcsTask exEnvC exDbC).1 1 = recordsFor exDbC 1 ∧
    (watchRatedVcsTask exEnvC exDbC).1.status 1 = VcStatus.finished ∧
    (watchRatedVcsTask exEnvC exDbC).1.participants 1 = exDbC.participants 1 ∧
    eventsFor (watchRatedVcsTask exEnvC exDbC).1.trace 1 = eventsFor exDbC.trace 1 ∧
    (∃ mid, (watchRatedVc exEnvC exDbC 2).1.trace =
        exDbC.trace ++ mid ++ [StoreEvent.finishVc 2] ∧
      ∀ e ∈ mid, ∀ w, e ≠ StoreEvent.finishVc w) := by
  have ha := c4_finished_vc_noop.1 exEnvC exDbC 1 rfl
  have hb := c4_finished_vc_noop.2 exEnvC exDbC 2 exVcC2 3 (fun _ => some 5) [[]]
    rfl rfl rfl rfl (by decide) (by decide)
  exact ⟨rfl, ha.1, ha.2.1, ha.2.2.1, ha.2.2.2, hb⟩

/-- C10 — confirmed.  Every record returned by `fetch_rating_changes` has a
non-null `newRating` taken from the upstream entry and a non-zero resolved
`oldRating`; entries with a null `new_rating`, a resolved old rating that is
null or 0, or (when performance is requested) an absent performance field
are dropped. -/
theorem c10_rating_change_filtering :
    (∀ (performance : Bool) (resp : List UpstreamChange) (r : RatingChange),
      r ∈ fetch_rating_changes performance resp →
      r.oldRating ≠ 0 ∧ ∃ c ∈ resp, c.new_rating = some r.newRating ∧
        resolvedOldRating performance c r.newRating = some r.oldRating) ∧
    (∀ (performance : Bool) (c : UpstreamChange),
      c.new_rating = none → processChange performance c = none) ∧
    (∀ (c : UpstreamChange) (nr : Int),
      c.new_rating = some nr → resolvedOldRating true c nr = none →
      processChange true c = none) ∧
    (∀ (performance : Bool) (c : UpstreamChange) (nr : Int),
      c.new_rating = some nr → resolvedOldRating performance c nr = some 0 →
      processChange performance c = none) := by
  refine ⟨?_, ?_, ?_, ?_⟩
  · intro performance resp r hr
    rw [fetch_rating_changes, List.mem_filterMap] at hr
    obtain ⟨c, hc, hpc⟩ := hr
    cases hnr : c.new_rating with
    | none => simp [processChange, hnr] at hpc
    | some nr =>
      simp only [processChange, hnr] at hpc
      cases hor : resolvedOldRating performance c nr with
      | none => simp [hor] at hpc
      | some o =>
        simp only [hor] at hpc
        by_cases ho : o = 0
        · simp [ho] at hpc
        · rw [if_neg ho] at hpc
          obtain rfl := Option.some.inj hpc
          exact ⟨ho, c, hc, hnr, hor⟩
  · intro performance c h
    simp [processChange, h]
  · intro c nr h1 h2
    simp [processChange, h1, h2]
  · intro performance c nr h1 h2
    simp [processChange, h1, h2]

/-! ## Helper lemmas: rating engine -/

/-- C9 — confirmed.  `winProbability(a, b) + winProbability(b, a) = 1`
(exactly, in the real-number idealization of the source's floats). -/
theorem c9_win_probability_complement (a b : ℝ) :
    getEloWinProbability a b + getEloWinProbability b a = 1 := by
  unfold getEloWinProbability
  have hb : (0 : ℝ) < 10 := by norm_num
  have h1 : (0 : ℝ) < (10 : ℝ) ^ ((b - a) / 400) := Real.rpow_pos_of_pos hb _
  have hinv : (10 : ℝ) ^ ((a - b) / 400) = ((10 : ℝ) ^ ((b - a) / 400))⁻¹ := by
    rw [show (a - b) / 400 = -((b - a) / 400) by ring, Real.rpow_neg hb.le]
  rw [hinv]
  have h2 : (1 : ℝ) + (10 : ℝ) ^ ((b - a) / 400) ≠ 0 := by positivity
  have h3 : (10 : ℝ) ^ ((b - a) / 400) ≠ 0 := h1.ne'
  field_simp
  ring

theorem winProb_lt_half_iff (r : ℝ) : getEloWinProbability r 1500 < 1 / 2 ↔ r < 1500 := by
  unfold getEloWinProbability
  have ht : (0 : ℝ) < (10 : ℝ) ^ ((1500 - r) / 400) := Real.rpow_pos_of_pos (by norm_num) _
  rw [div_lt_div_iff₀ (by positivity) (by norm_num), one_mul, one_mul,
    show (2 : ℝ) = 1 + 1 by norm_num, add_lt_add_iff_left,
    Real.one_lt_rpow_iff_of_pos (by norm_num : (0 : ℝ) < 10)]
  constructor
  · rintro (⟨-, h⟩ | ⟨h10, -⟩)
    · linarith [h]
    · norm_num at h10
  · intro h
    left
    exact ⟨by norm_num, by linarith⟩

theorem composeStep_single (lr : ℝ × ℝ) :
    composeStep [((1500 : ℝ), 1)] lr =
      if getEloWinProbability ((lr.1 + lr.2) / 2) 1500 < 1 / 2
      then ((lr.1 + lr.2) / 2, lr.2) else (lr.1, (lr.1 + lr.2) / 2) := by
  unfold composeStep
  simp [List.foldl_cons, List.foldl_nil, pow_one]

theorem composeStep_bounds (lr : ℝ × ℝ) (h1 : lr.1 < 1500) (h2 : 1500 ≤ lr.2) :
    (composeStep [((1500 : ℝ), 1)] lr).1 < 1500 ∧
    1500 ≤ (composeStep [((1500 : ℝ), 1)] lr).2 ∧
    (composeStep [((1500 : ℝ), 1)] lr).2 - (composeStep [((1500 : ℝ), 1)] lr).1 =
      (lr.2 - lr.1) / 2 := by
  rw [composeStep_single]
  by_cases hc : getEloWinProbability ((lr.1 + lr.2) / 2) 1500 < 1 / 2
  · rw [if_pos hc]
    have hm : (lr.1 + lr.2) / 2 < 1500 := (winProb_lt_half_iff _).mp hc
    exact ⟨hm, h2, by ring⟩
  · rw [if_neg hc]
    have hm : 1500 ≤ (lr.1 + lr.2) / 2 :=
      not_lt.mp ((not_congr (winProb_lt_half_iff _)).mp hc)
    exact ⟨h1, hm, by ring⟩

theorem compose_iterate (n : ℕ) :
    ((composeStep [((1500 : ℝ), 1)])^[n] (-100, 10000)).1 < 1500 ∧
    1500 ≤ ((composeStep [((1500 : ℝ), 1)])^[n] (-100, 10000)).2 ∧
    ((composeStep [((1500 : ℝ), 1)])^[n] (-100, 10000)).2 -
      ((composeStep [((1500 : ℝ), 1)])^[n] (-100, 10000)).1 = 10100 / 2 ^ n := by
  induction n with
  | zero =>
    refine ⟨by norm_num, by norm_num, by norm_num⟩
  | succ n ih =>
    rw [Function.iterate_succ_apply']
    obtain ⟨h1, h2, h3⟩ := ih
    obtain ⟨g1, g2, g3⟩ := composeStep_bounds _ h1 h2
    refine ⟨g1, g2, ?_⟩
    rw [g3, h3, pow_succ]
    ring

/-- C8 — confirmed.  With the single opponent `(1500, 1)` and the default
search interval `left = -100`, `right = 10000`, the 20-iteration binary
search of `composeRatings` returns an integer within ±1 of 1500. -/
theorem c8_compose_single_opponent :
    |composeRatings (-100) 10000 [((1500 : ℝ), 1)] - 1500| ≤ 1 := by
  obtain ⟨h1, h2, h3⟩ := compose_iterate 20
  unfold composeRatings
  set lr := (composeStep [((1500 : ℝ), 1)])^[20] (-100, 10000) with hlr
  set mid := (lr.1 + lr.2) / 2 with hmid
  have habs : |mid - 1500| ≤ 10100 / 2 ^ 20 / 2 := by
    rw [abs_le]
    constructor
    · linarith [hmid, h2, h3]
    · linarith [hmid, h1, h3]
  have hround : |(round mid : ℝ) - mid| ≤ 1 / 2 := by
    have h := abs_sub_round mid
    rwa [abs_sub_comm] at h
  have hfinal : |(round mid : ℝ) - 1500| < 1 := by
    calc |(round mid : ℝ) - 1500| ≤ |(round mid : ℝ) - mid| + |mid - 1500| :=
          abs_sub_le _ _ _
      _ ≤ 1 / 2 + 10100 / 2 ^ 20 / 2 := add_le_add hround habs
      _ < 1 := by norm_num
  have hz : |round mid - (1500 : ℤ)| < 1 := by exact_mod_cast hfinal
  exact hz.le

/-- C10 — witness: of three upstream entries, the complete one yields the
expected record, the null-`new_rating` one and the resolved-zero one are
dropped, and with performance requested the entry without a performance
field is dropped. -/
theorem c10_rating_change_filtering_witness :
    exRecGood ∈ fetch_rating_changes false exResp ∧
    exRecGood.oldRating ≠ 0 ∧
    (∃ c ∈ exResp, c.new_rating = some exRecGood.newRating ∧
      resolvedOldRating false c exRecGood.newRating = some exRecGood.oldRating) ∧
    exChangeNullNew.new_rating = none ∧
    processChange false exChangeNullNew = none ∧
    exChangeZeroOld.new_rating = some 100 ∧
    resolvedOldRating false exChangeZeroOld 100 = some 0 ∧
    processChange false exChangeZeroOld = none ∧
    resolvedOldRating true exChangeZeroOld 100 = none ∧
    processChange true exChangeZeroOld = none := by
  have h1 := c10_rating_change_filtering.1 false exResp exRecGood (by decide)
  refine ⟨by decide, h1.1, h1.2, rfl,
    c10_rating_change_filtering.2.1 false exChangeNullNew rfl, rfl, rfl,
    c10_rating_change_filtering.2.2.2 false exChangeZeroOld 100 rfl rfl, rfl,
    c10_rating_change_filtering.2.2.1 exChangeZeroOld 100 rfl rfl⟩

end TLE
